import Mathlib

/-!
Shallow embedding of the hdhomerun packet codec, transaction client,
tuner enumerator and discovery protocol (mdlayher/hdhomerun_exporter and
its vendored mdlayher/hdhomerun library), together with proofs of the
specification claims about them.

Bytes are modelled as `Nat` (with explicit `< 256` bounds where the Go
code relies on byte width), byte slices as `List Nat`, and fallible Go
functions as `Except GoErr`.
-/

namespace Hdhr

/-- Error values produced by the Go code (each constructor corresponds to a
distinct Go error value or error construction site). -/
inductive GoErr where
  /-- io.ErrUnexpectedEOF -/
  | unexpectedEOF
  /-- errInvalidChecksum -/
  | invalidChecksum
  /-- errTagLengthBuffer -/
  | tagLengthBuffer
  /-- a device-reported *Error with the given message (hdhomerun.Error) -/
  | deviceErr (msg : String)
  /-- any other error value (transport failures etc.), by description -/
  | other (s : String)
  deriving DecidableEq, Repr

/-- Decidable equality for Except results, so concrete runs of the
embedded functions can be checked by the kernel. -/
instance {ε α : Type} [DecidableEq ε] [DecidableEq α] :
    DecidableEq (Except ε α) := fun x y =>
  match x, y with
  | .error a, .error b =>
    match decEq a b with
    | isTrue h => isTrue (by rw [h])
    | isFalse h => isFalse (fun hc => h (by cases hc; rfl))
  | .error _, .ok _ => isFalse (fun hc => by cases hc)
  | .ok _, .error _ => isFalse (fun hc => by cases hc)
  | .ok a, .ok b =>
    match decEq a b with
    | isTrue h => isTrue (by rw [h])
    | isFalse h => isFalse (fun hc => h (by cases hc; rfl))

/-- A Tag is an attribute carried by a Packet (packet.go). -/
structure Tag where
  /-- Type specifies the type of payload this Tag carries (uint8). -/
  type : Nat
  /-- Data is an arbitrary byte payload. -/
  data : List Nat
  deriving DecidableEq, Repr

/-- A Packet is a network packet used to communicate with HDHomeRun
devices (packet.go). -/
structure Packet where
  /-- Type specifies the type of message this Packet carries (uint16). -/
  type : Nat
  /-- Tags specifies zero or more tags containing optional attributes. -/
  tags : List Tag
  deriving DecidableEq, Repr

/-- largeTagLength from packet.go: when a tag's length must be encoded as
two bytes instead of one. -/
def largeTagLength : Nat := 128

/-- The reversed CRC-32 IEEE polynomial used by hash/crc32 (IEEE table). -/
def crcPoly : Nat := 0xEDB88320

/-- One bit-step of the CRC-32 computation: shift right, conditionally
xor the polynomial when the low bit is set. -/
def crcBitStep (c : Nat) : Nat :=
  if c &&& 1 = 1 then (c >>> 1) ^^^ crcPoly else c >>> 1

/-- Iterate `crcBitStep` n times. -/
def crcBitSteps : Nat → Nat → Nat
  | 0, c => c
  | n + 1, c => crcBitSteps n (crcBitStep c)

/-- Process one byte of input: xor it into the register, then run eight
bit-steps. -/
def crcByteStep (c b : Nat) : Nat := crcBitSteps 8 (c ^^^ b)

/-- crc32.ChecksumIEEE from hash/crc32: init 0xFFFFFFFF, process every
byte, final complement. -/
def crc32 (bs : List Nat) : Nat :=
  (bs.foldl crcByteStep 0xFFFFFFFF) ^^^ 0xFFFFFFFF

/-- binary.BigEndian.PutUint16: the two big-endian bytes of a 16-bit value. -/
def be16 (n : Nat) : List Nat := [(n >>> 8) &&& 0xff, n &&& 0xff]

/-- binary.BigEndian.Uint16 over (at least) two bytes. -/
def beUint16 (b : List Nat) : Nat := (b.getD 0 0 <<< 8) ||| b.getD 1 0

/-- binary.LittleEndian.PutUint32: the four little-endian bytes of a
32-bit value. -/
def le32 (n : Nat) : List Nat :=
  [n &&& 0xff, (n >>> 8) &&& 0xff, (n >>> 16) &&& 0xff, (n >>> 24) &&& 0xff]

/-- binary.LittleEndian.Uint32 over (at least) four bytes. -/
def leUint32 (b : List Nat) : Nat :=
  b.getD 0 0 ||| (b.getD 1 0 <<< 8) ||| (b.getD 2 0 <<< 16) ||| (b.getD 3 0 <<< 24)

/-- binary.BigEndian.Uint32 over (at least) four bytes. -/
def beUint32 (b : List Nat) : Nat :=
  (b.getD 0 0 <<< 24) ||| (b.getD 1 0 <<< 16) ||| (b.getD 2 0 <<< 8) ||| b.getD 3 0

/-- The Go slice expression b[i:j] (for j ≤ len b). -/
def listSlice (b : List Nat) (i j : Nat) : List Nat := (b.drop i).take (j - i)

/-- writeTagLength from packet.go: writes the value of n into the 2-byte
buffer b using the variable tag-length algorithm; returns the number of
bytes consumed together with the updated buffer. -/
def writeTagLength (n : Nat) (b : List Nat) : Except GoErr (Nat × List Nat) :=
  if b.length ≠ 2 then .error .tagLengthBuffer
  else if n < largeTagLength then .ok (1, [n, b.getD 1 0])
  else .ok (2, [b.getD 0 0 ||| (0x80 ||| (n &&& 0xff)),
                b.getD 1 0 ||| ((n >>> 7) &&& 0xff)])

/-- readTagLength from packet.go: reads a length value from the 2-byte
buffer b; returns the length and the number of bytes consumed. -/
def readTagLength (b : List Nat) : Except GoErr (Nat × Nat) :=
  if b.length ≠ 2 then .error .tagLengthBuffer
  else if b.getD 0 0 &&& 0x80 = 0 then .ok (b.getD 0 0, 1)
  else .ok ((b.getD 0 0 &&& 0x7f) ||| (b.getD 1 0 <<< 7), 2)

/-- The per-tag size of the encoded length field, as computed in
MarshalBinary (tlen). -/
def tagLenSize (t : Tag) : Nat := if t.data.length ≥ largeTagLength then 2 else 1

/-- The payload byte count computed by MarshalBinary's first loop
(count). -/
def payloadCount (tags : List Tag) : Nat :=
  tags.foldl (fun acc t => acc + (1 + tagLenSize t + t.data.length)) 0

/-- The encoding of a single tag inside MarshalBinary's second loop: type
byte, length field written into a fresh zeroed 2-byte region (of which
`consumed` bytes remain), then the data bytes. -/
def marshalTag (t : Tag) : Except GoErr (List Nat) :=
  match writeTagLength t.data.length [0, 0] with
  | .error e => .error e
  | .ok (consumed, lb) => .ok (t.type :: (lb.take consumed ++ t.data))

/-- The concatenation of all encoded tags (MarshalBinary's second loop). -/
def marshalTags : List Tag → Except GoErr (List Nat)
  | [] => .ok []
  | t :: ts =>
    match marshalTag t with
    | .error e => .error e
    | .ok tb =>
      match marshalTags ts with
      | .error e => .error e
      | .ok rest => .ok (tb ++ rest)

/-- MarshalBinary from packet.go: header (big-endian type and payload
count), encoded tags, then the little-endian CRC-32 of everything
preceding the checksum. -/
def marshalBinary (p : Packet) : Except GoErr (List Nat) :=
  match marshalTags p.tags with
  | .error e => .error e
  | .ok payload =>
    let pre := be16 p.type ++ be16 (payloadCount p.tags % 65536) ++ payload
    .ok (pre ++ le32 (crc32 pre))

/-- A helper: first byte consumed of a successful readTagLength is
positive (used for termination of the unmarshal loop). -/
theorem readTagLength_consumed_pos {b : List Nat} {t c : Nat}
    (h : readTagLength b = .ok (t, c)) : 1 ≤ c := by
  unfold readTagLength at h
  split at h
  · exact absurd h (by simp)
  · split at h
    · cases h; exact Nat.le_refl 1
    · cases h; exact Nat.le_of_lt Nat.one_lt_two

/-- The tag-parsing loop of UnmarshalBinary (packet.go lines 110-132):
starting at offset i, read a tag type byte, a variable-width length, check
the declared length against the position where the checksum begins, copy
the data, and continue. -/
def unmarshalTagsLoop (b : List Nat) (i : Nat) (acc : List Tag) :
    Except GoErr (List Tag) :=
  if i < b.length - 4 then
    match h : readTagLength (listSlice b (i + 1) (i + 3)) with
    | .error e => .error e
    | .ok (tlen, consumed) =>
      let j := i + 1 + consumed
      if (b.length : Int) - j - 4 < tlen then .error .unexpectedEOF
      else unmarshalTagsLoop b (j + tlen)
        (acc ++ [⟨b.getD i 0, listSlice b j (j + tlen)⟩])
  else .ok acc
termination_by b.length - i
decreasing_by
  have hc := readTagLength_consumed_pos h
  omega

/-- Unfolding equation for `unmarshalTagsLoop` with a non-dependent match,
for use in proofs. -/
theorem unmarshalTagsLoop_eq (b : List Nat) (i : Nat) (acc : List Tag) :
    unmarshalTagsLoop b i acc =
    if i < b.length - 4 then
      match readTagLength (listSlice b (i + 1) (i + 3)) with
      | .error e => .error e
      | .ok (tlen, consumed) =>
        let j := i + 1 + consumed
        if (b.length : Int) - j - 4 < tlen then .error .unexpectedEOF
        else unmarshalTagsLoop b (j + tlen)
          (acc ++ [⟨b.getD i 0, listSlice b j (j + tlen)⟩])
    else .ok acc := by
  rw [unmarshalTagsLoop]
  by_cases hi : i < b.length - 4
  · simp only [if_pos hi]
    split
    · next e h => rw [h]
    · next tlen consumed h => rw [h]
  · simp only [if_neg hi]

/-- UnmarshalBinary from packet.go: length check, checksum check, declared
payload length check, then the tag-parsing loop. -/
def unmarshalBinary (b : List Nat) : Except GoErr Packet :=
  if b.length < 8 then .error .unexpectedEOF
  else
    let want := leUint32 (b.drop (b.length - 4))
    let got := crc32 (b.take (b.length - 4))
    if want ≠ got then .error .invalidChecksum
    else
      let typ := beUint16 (b.take 2)
      let length := beUint16 (listSlice b 2 4)
      if length ≠ b.length - 8 then .error .unexpectedEOF
      else if length = 0 then .ok ⟨typ, []⟩
      else
        match unmarshalTagsLoop b 4 [] with
        | .error e => .error e
        | .ok tags => .ok ⟨typ, tags⟩

/-- The condition "some tag's declared data length would read past the
position where the checksum begins", operationalized over the sequential
tag scan of UnmarshalBinary: walk the tags exactly as the decode loop
does and report whether the declared-length check ever trips. -/
def tagsOverrun (b : List Nat) (i : Nat) : Bool :=
  if i < b.length - 4 then
    match h : readTagLength (listSlice b (i + 1) (i + 3)) with
    | .error _ => false
    | .ok (tlen, consumed) =>
      let j := i + 1 + consumed
      if (b.length : Int) - j - 4 < tlen then true
      else tagsOverrun b (j + tlen)
  else false
termination_by b.length - i
decreasing_by
  have hc := readTagLength_consumed_pos h
  omega

/-- Unfolding equation for `tagsOverrun` with a non-dependent match. -/
theorem tagsOverrun_eq (b : List Nat) (i : Nat) :
    tagsOverrun b i =
    if i < b.length - 4 then
      match readTagLength (listSlice b (i + 1) (i + 3)) with
      | .error _ => false
      | .ok (tlen, consumed) =>
        let j := i + 1 + consumed
        if (b.length : Int) - j - 4 < tlen then true
        else tagsOverrun b (j + tlen)
    else false := by
  rw [tagsOverrun]
  by_cases hi : i < b.length - 4
  · simp only [if_pos hi]
    split
    · next e h => rw [h]
    · next tlen consumed h => rw [h]
  · simp only [if_neg hi]

/-! A bounds-checked mirror of UnmarshalBinary: every Go index and slice
expression is guarded by the bound Go requires, and an out-of-bounds
access (a Go panic) is modelled as `none`. -/

/-- The Go index expression b[i], checked. -/
def idxChk (b : List Nat) (i : Nat) : Option Nat :=
  if i < b.length then some (b.getD i 0) else none

/-- The Go slice expression b[i:j], checked. -/
def sliceChk (b : List Nat) (i j : Nat) : Option (List Nat) :=
  if i ≤ j ∧ j ≤ b.length then some (listSlice b i j) else none

/-- binary.LittleEndian.Uint32, checked (it panics on fewer than 4
bytes). -/
def uint32Chk (x : List Nat) : Option Nat :=
  if 4 ≤ x.length then some (leUint32 x) else none

/-- binary.BigEndian.Uint16, checked (it panics on fewer than 2 bytes). -/
def uint16Chk (x : List Nat) : Option Nat :=
  if 2 ≤ x.length then some (beUint16 x) else none

/-- The tag-parsing loop of UnmarshalBinary with every index and slice
checked: the first inner guard is the bound required by the Go
expressions b[i] and b[i:i+2], the `j ≤ b.length` guard the bound
required by len(b[i:]), and the `j + tlen ≤ b.length` guard the bound
required by b[i:i+tlen]; a violated bound (a Go panic) is `none`. -/
def unmarshalTagsLoopChk (b : List Nat) (i : Nat) (acc : List Tag) :
    Option (Except GoErr (List Tag)) :=
  if i < b.length - 4 then
    if i < b.length ∧ i + 3 ≤ b.length then
      match h : readTagLength (listSlice b (i + 1) (i + 3)) with
      | .error e => some (.error e)
      | .ok (tlen, consumed) =>
        let j := i + 1 + consumed
        if j ≤ b.length then
          if (b.length : Int) - j - 4 < tlen then some (.error .unexpectedEOF)
          else if j + tlen ≤ b.length then
            unmarshalTagsLoopChk b (j + tlen)
              (acc ++ [⟨b.getD i 0, listSlice b j (j + tlen)⟩])
          else none
        else none
    else none
  else some (.ok acc)
termination_by b.length - i
decreasing_by
  have hc := readTagLength_consumed_pos h
  omega

/-- Unfolding equation for `unmarshalTagsLoopChk` with a non-dependent
match. -/
theorem unmarshalTagsLoopChk_eq (b : List Nat) (i : Nat) (acc : List Tag) :
    unmarshalTagsLoopChk b i acc =
    if i < b.length - 4 then
      if i < b.length ∧ i + 3 ≤ b.length then
        match readTagLength (listSlice b (i + 1) (i + 3)) with
        | .error e => some (.error e)
        | .ok (tlen, consumed) =>
          let j := i + 1 + consumed
          if j ≤ b.length then
            if (b.length : Int) - j - 4 < tlen then some (.error .unexpectedEOF)
            else if j + tlen ≤ b.length then
              unmarshalTagsLoopChk b (j + tlen)
                (acc ++ [⟨b.getD i 0, listSlice b j (j + tlen)⟩])
            else none
          else none
      else none
    else some (.ok acc) := by
  rw [unmarshalTagsLoopChk]
  by_cases hi : i < b.length - 4
  · simp only [if_pos hi]
    by_cases hb : i < b.length ∧ i + 3 ≤ b.length
    · simp only [if_pos hb]
      split
      · next e h => rw [h]
      · next tlen consumed h => rw [h]
    · simp only [if_neg hb]
  · simp only [if_neg hi]

/-- UnmarshalBinary with every index and slice checked. -/
def unmarshalBinaryChk (b : List Nat) : Option (Except GoErr Packet) :=
  if b.length < 8 then some (.error .unexpectedEOF)
  else
    match sliceChk b (b.length - 4) b.length, sliceChk b 0 (b.length - 4) with
    | some last4, some pre =>
      match uint32Chk last4 with
      | none => none
      | some want =>
        let got := crc32 pre
        if want ≠ got then some (.error .invalidChecksum)
        else
          match sliceChk b 0 2, sliceChk b 2 4 with
          | some t2, some l2 =>
            match uint16Chk t2, uint16Chk l2 with
            | some typ, some length =>
              if length ≠ b.length - 8 then some (.error .unexpectedEOF)
              else if length = 0 then some (.ok ⟨typ, []⟩)
              else
                match unmarshalTagsLoopChk b 4 [] with
                | none => none
                | some (.error e) => some (.error e)
                | some (.ok tags) => some (.ok ⟨typ, tags⟩)
            | _, _ => none
          | _, _ => none
    | _, _ => none

/-- The byte string b with bit k of byte j flipped (used to state
checksum sensitivity). -/
def flipBit (b : List Nat) (j k : Nat) : List Nat :=
  b.take j ++ (b.getD j 0 ^^^ (1 <<< k)) :: b.drop (j + 1)

/-- Whether an Except result is an error (err != nil in Go terms). -/
def isErr {α : Type} : Except GoErr α → Bool
  | .error _ => true
  | .ok _ => false

/-! Protocol constants from internal/libhdhomerun (generated from
libhdhomerun/hdhomerun_pkt.h). -/

/-- Discover request packet type. -/
def TypeDiscoverReq : Nat := 0x0002

/-- Discover reply packet type. -/
def TypeDiscoverRpy : Nat := 0x0003

/-- Get/set request packet type. -/
def TypeGetsetReq : Nat := 0x0004

/-- Get/set reply packet type. -/
def TypeGetsetRpy : Nat := 0x0005

/-- Device type tag. -/
def TagDeviceType : Nat := 0x01

/-- Device ID tag. -/
def TagDeviceId : Nat := 0x02

/-- Get/set name tag. -/
def TagGetsetName : Nat := 0x03

/-- Get/set value tag. -/
def TagGetsetValue : Nat := 0x04

/-- Error message tag. -/
def TagErrorMessage : Nat := 0x05

/-- Tuner count tag. -/
def TagTunerCount : Nat := 0x10

/-- Base URL tag. -/
def TagBaseUrl : Nat := 0x2A

/-- Maximum packet size (receive buffer size of the Client). -/
def MaxPacketSize : Nat := 1460

/-! The transaction client (src/unnamed/part_002). -/

/-- The observable behaviour of the Client's net.Conn during one Execute
call: the result of arming the deadline, of the single write, and of the
single read (the bytes that arrive). -/
structure Conn where
  /-- Result of c.SetDeadline: some e when it fails. -/
  setDeadlineErr : Option GoErr
  /-- Result of c.Write: some e when it fails. -/
  writeErr : Option GoErr
  /-- Result of c.Read: the datagram bytes delivered, or a read error. -/
  readRes : Except GoErr (List Nat)

/-- Client.Execute (part_002 lines 74-109): optionally arm the deadline,
marshal the request, write it, read into the fixed MaxPacketSize buffer,
and unmarshal exactly the bytes read. -/
def execute (timeout : Nat) (conn : Conn) (req : Packet) :
    Except GoErr Packet :=
  match (if timeout ≠ 0 then conn.setDeadlineErr else none) with
  | some e => .error e
  | none =>
    match marshalBinary req with
    | .error e => .error e
    | .ok _ =>
      match conn.writeErr with
      | some e => .error e
      | none =>
        match conn.readRes with
        | .error e => .error e
        | .ok bs =>
          match unmarshalBinary (bs.take MaxPacketSize) with
          | .error e => .error e
          | .ok rep => .ok rep

/-- bytesStr from part_002: the contents of b with any single trailing
null byte removed, decoded as a string of byte-sized characters. -/
def bytesStr (b : List Nat) : String :=
  String.mk ((if b.getLast? = some 0 then b.dropLast else b).map Char.ofNat)

/-- errorPrefix from part_002 ("ERROR: "), as a byte list. -/
def errorPfx : List Nat := [69, 82, 82, 79, 82, 58, 32]

/-- newError from part_002: trim the "ERROR: " marker from the device's
message bytes (after stripping the null terminator), producing the
device-reported Error's message. -/
def newErrorMsg (b : List Nat) : String :=
  let s := if b.getLast? = some 0 then b.dropLast else b
  let s2 := if s.take errorPfx.length = errorPfx then s.drop errorPfx.length else s
  String.mk (s2.map Char.ofNat)

/-- unknownGetSet from part_002: the device message that IsNotExist
recognizes. -/
def unknownGetSet : String := "unknown getset variable"

/-- IsNotExist from part_002 lines 216-227: the error is a device-reported
*Error whose message is the "unknown getset variable" sentinel. -/
def IsNotExist : GoErr → Bool
  | .deviceErr msg => msg = unknownGetSet
  | _ => false

/-- The tag scan in Client.Query (part_002 lines 141-152): walk the reply
tags, recording the name and value tag payloads (each assignment
overwrites the previous one) and short-circuiting to a device-reported
Error as soon as an error tag is seen. -/
def queryScanTags : List Tag → Option (List Nat) → Option (List Nat) →
    Except GoErr (Option (List Nat) × Option (List Nat))
  | [], name, value => .ok (name, value)
  | t :: ts, name, value =>
    if t.type = TagGetsetName then queryScanTags ts (some t.data) value
    else if t.type = TagGetsetValue then queryScanTags ts name (some t.data)
    else if t.type = TagErrorMessage then .error (.deviceErr (newErrorMsg t.data))
    else queryScanTags ts name value

/-- The reply-validation phase of Client.Query (part_002 lines 135-162),
applied to the reply packet: check the reply type, scan the tags, require
both name and value, and require the echoed name to equal the query. -/
def queryReply (queryb : List Nat) (rep : Packet) : Except GoErr (List Nat) :=
  if rep.type ≠ TypeGetsetRpy then .error (.other "expected get/set reply")
  else
    match queryScanTags rep.tags none none with
    | .error e => .error e
    | .ok (name, value) =>
      match name, value with
      | none, _ => .error (.other "missing query name and/or value in query reply")
      | _, none => .error (.other "missing query name and/or value in query reply")
      | some n, some v =>
        if n ≠ queryb then .error (.other "unexpected query in reply packet")
        else .ok v

/-- ForEachTuner (part_002 lines 185-203), with the per-index t.Debug()
call and the callback modelled as oracles; returns the list of indices the
callback was invoked on, together with the final result (none = nil),
or `none` when the supplied fuel is exhausted before the device reports
that a tuner index does not exist. -/
def forEachTunerAux (debug : Nat → Except GoErr Unit)
    (fn : Nat → Except GoErr Unit) : Nat → Nat → Option (List Nat × Option GoErr)
  | 0, _ => none
  | fuel + 1, i =>
    match debug i with
    | .error e => if IsNotExist e then some ([], none) else some ([], some e)
    | .ok _ =>
      match fn i with
      | .error e => some ([i], some e)
      | .ok _ =>
        match forEachTunerAux debug fn fuel (i + 1) with
        | none => none
        | some (vs, r) => some (i :: vs, r)

/-- ForEachTuner starting at index 0. -/
def forEachTuner (debug : Nat → Except GoErr Unit)
    (fn : Nat → Except GoErr Unit) (fuel : Nat) : Option (List Nat × Option GoErr) :=
  forEachTunerAux debug fn fuel 0

/-! The discovery protocol (src/unnamed/part_005). -/

/-- A DiscoveredDevice (part_005 lines 302-317); the Addr is carried as an
opaque string, the ID as the hex-encoded byte string, the URL (modelled on
the successfully parsed case of net/url.Parse, which is external to this
repository) as the raw URL bytes. -/
structure DiscoveredDevice where
  /-- ID is the unique ID of this device (8 hex characters). -/
  id : List Nat := []
  /-- Addr is the network address of this device. -/
  addr : String := ""
  /-- Type is the type of device discovered. -/
  type : Nat := 0
  /-- URL, if available, is the URL for the device's web UI. -/
  url : Option (List Nat) := none
  /-- Tuners is the number of TV tuners available to the device. -/
  tuners : Nat := 0
  deriving DecidableEq, Repr

/-- Errors produced by newDiscoveredDevice and parseTags. -/
inductive DevErr where
  /-- expected discover reply, but got another packet type -/
  | wrongType (t : Nat)
  /-- unexpected device type length in discover reply -/
  | badTypeLen (n : Nat)
  /-- unexpected device ID length in discover reply -/
  | badIdLen (n : Nat)
  /-- unexpected tuner count length in discover reply -/
  | badTunerLen (n : Nat)
  /-- no device type found in discover reply -/
  | noType
  /-- no device ID found in discover reply -/
  | noId
  deriving DecidableEq, Repr

/-- hex.EncodeToString: two lowercase hex digit characters per byte. -/
def hexDigit (n : Nat) : Nat := if n < 10 then 48 + n else 87 + n

/-- hex.EncodeToString over a byte list, as a list of character codes. -/
def hexEncode (b : List Nat) : List Nat :=
  b.flatMap (fun x => [hexDigit (x >>> 4), hexDigit (x &&& 0xf)])

/-- parseTags (part_005 lines 345-379): walk the tags, each recognized tag
type overwriting the corresponding DiscoveredDevice field, with length
validation for the fixed-width tags. -/
def parseTags (d : DiscoveredDevice) : List Tag → Except DevErr DiscoveredDevice
  | [] => .ok d
  | t :: ts =>
    if t.type = TagDeviceType then
      if t.data.length ≠ 4 then .error (.badTypeLen t.data.length)
      else parseTags { d with type := beUint32 t.data } ts
    else if t.type = TagDeviceId then
      if t.data.length ≠ 4 then .error (.badIdLen t.data.length)
      else parseTags { d with id := hexEncode t.data } ts
    else if t.type = TagBaseUrl then
      parseTags { d with url := some t.data } ts
    else if t.type = TagTunerCount then
      if t.data.length ≠ 1 then .error (.badTunerLen t.data.length)
      else parseTags { d with tuners := t.data.getD 0 0 } ts
    else parseTags d ts

/-- newDiscoveredDevice (part_005 lines 321-342): reject a non-reply
packet type, parse the tags, then require a device type and a device ID. -/
def newDiscoveredDevice (addr : String) (p : Packet) :
    Except DevErr DiscoveredDevice :=
  if p.type ≠ TypeDiscoverRpy then .error (.wrongType p.type)
  else
    match parseTags { addr := addr } p.tags with
    | .error e => .error e
    | .ok device =>
      if device.type = 0 then .error .noType
      else if device.id = [] then .error .noId
      else .ok device

/-- The value of ctx.Err() once a context's Done channel is closed: the
standard library context contract guarantees it is either Canceled or
DeadlineExceeded. -/
inductive CtxErr where
  /-- context.Canceled -/
  | canceled
  /-- context.DeadlineExceeded -/
  | deadlineExceeded
  deriving DecidableEq, Repr

/-- Errors with which the discovery functions terminate. -/
inductive DiscErr where
  /-- a retryableError wrapping a packet decode failure -/
  | retryableDecode (e : GoErr)
  /-- a retryableError wrapping a newDiscoveredDevice failure -/
  | retryableDevice (e : DevErr)
  /-- the io.EOF sentinel for "done with discovery" -/
  | ioEOF
  /-- an unhandled listener (read) error, surfaced fatally -/
  | readFatal (e : GoErr)
  deriving DecidableEq, Repr

/-- One event observed by one iteration of the discovery read loop: the
outcome of the blocking ReadFrom (the datagram bytes and sender address,
or an error), together with the value of ctx.Err() at the time the read
outcome is handled (none while the context has not fired). -/
structure DiscEvent where
  /-- The result of d.c.ReadFrom. -/
  read : Except GoErr (List Nat × String)
  /-- ctx.Err() when the read returns. -/
  ctxErr : Option CtxErr

/-- One call of the unexported (d *Discoverer).discover (part_005 lines
227-298), given the event its read observes: a failed read is re-examined
against the context (a fired context yields the io.EOF sentinel, otherwise
the read error is fatal); a received datagram is decoded and converted,
failures of either step being wrapped as retryable. -/
def discoverOnce (ev : DiscEvent) : Except DiscErr DiscoveredDevice :=
  match ev.read with
  | .error e =>
    match ev.ctxErr with
    | some _ => .error .ioEOF
    | none => .error (.readFatal e)
  | .ok (data, addr) =>
    match unmarshalBinary data with
    | .error e => .error (.retryableDecode e)
    | .ok p =>
      match newDiscoveredDevice addr p with
      | .error e => .error (.retryableDevice e)
      | .ok device => .ok device

/-- The retry loop of Discover (part_005 lines 210-224): keep reading
until a device is found or a non-retryable error occurs; `none` means the
event list was exhausted with the loop still blocked in the next read. -/
def discoverLoop : List DiscEvent → Option (Except DiscErr DiscoveredDevice)
  | [] => none
  | ev :: rest =>
    match discoverOnce ev with
    | .error (.retryableDecode _) => discoverLoop rest
    | .error (.retryableDevice _) => discoverLoop rest
    | .error e => some (.error e)
    | .ok device => some (.ok device)

/-- Discover (part_005 lines 192-225): if the context has already fired
before the call, return the io.EOF sentinel immediately; otherwise run the
retry loop over the events the socket delivers. -/
def Discover (ctxAtStart : Option CtxErr) (events : List DiscEvent) :
    Option (Except DiscErr DiscoveredDevice) :=
  match ctxAtStart with
  | some _ => some (.error .ioEOF)
  | none => discoverLoop events

/-! Helper lemmas about the bit-level length encoding. -/

/-- A value below 128 has its eighth bit clear. -/
theorem and128_eq_zero {n : Nat} (h : n < 128) : n &&& 0x80 = 0 := by
  apply Nat.eq_of_testBit_eq
  intro i
  have h128 : (0x80 : Nat) = 2 ^ 7 := by norm_num
  simp only [h128, Nat.testBit_and, Nat.testBit_two_pow, Nat.zero_testBit]
  by_cases hi : (7 : Nat) = i
  · subst hi
    simp [Nat.testBit_lt_two_pow (show n < 2 ^ 7 by omega)]
  · simp [hi]

/-- Setting the eighth bit makes it visible to the mask. -/
theorem or128_and128 (m : Nat) : (0x80 ||| m) &&& 0x80 = 0x80 := by
  apply Nat.eq_of_testBit_eq
  intro i
  have h128 : (0x80 : Nat) = 2 ^ 7 := by norm_num
  simp only [h128, Nat.testBit_and, Nat.testBit_or, Nat.testBit_two_pow]
  by_cases hi : (7 : Nat) = i <;> simp [hi]

/-- Decoding the two-byte tag length encoding recovers the original value
for lengths below 2^15. -/
theorem tagLen_decode_encode (n : Nat) (h : n < 32768) :
    ((0x80 ||| (n &&& 0xff)) &&& 0x7f) ||| (((n >>> 7) &&& 0xff) <<< 7) = n := by
  apply Nat.eq_of_testBit_eq
  intro i
  have h255 : (0xff : Nat) = 2 ^ 8 - 1 := by norm_num
  have h127 : (0x7f : Nat) = 2 ^ 7 - 1 := by norm_num
  have h128 : (0x80 : Nat) = 2 ^ 7 := by norm_num
  simp only [h255, h127, h128, Nat.testBit_or, Nat.testBit_and,
    Nat.testBit_shiftLeft, Nat.testBit_shiftRight, Nat.testBit_two_pow,
    Nat.testBit_two_pow_sub_one]
  rcases Nat.lt_or_ge i 7 with hi | hi
  · have h7i : ¬ (7 : Nat) = i := by omega
    have h8 : i < 8 := by omega
    have hle : ¬ 7 ≤ i := by omega
    simp [hi, h7i, h8, hle]
  · rcases Nat.lt_or_ge i 15 with hi2 | hi2
    · have h1 : ¬ i < 7 := by omega
      have h2 : i - 7 < 8 := by omega
      have h3 : 7 + (i - 7) = i := by omega
      have h4 : 7 ≤ i := hi
      by_cases h7i : (7 : Nat) = i
      · simp [h7i.symm, h1, h2, h3, h4]
      · simp [h1, h2, h3, h4, h7i]
    · have h1 : ¬ i < 7 := by omega
      have h4 : 7 ≤ i := hi
      have h7i : ¬ (7 : Nat) = i := by omega
      have h2 : ¬ i - 7 < 8 := by omega
      have hn15 : n.testBit i = false :=
        Nat.testBit_lt_two_pow
          (Nat.lt_of_lt_of_le h (Nat.pow_le_pow_right (show 0 < 2 by norm_num) hi2))
      simp [h1, h4, h7i, h2, hn15]

/-! Claim theorems. -/

set_option maxRecDepth 100000 in
/-- C1: the packet codec round-trip law fails on the code as written.  The
byte string below is an 11-byte packet with a valid checksum whose single
tag encodes data length 0 in the non-canonical two-byte form; it decodes
successfully, but re-encoding the decoded Packet produces a different
(10-byte, canonical) byte string, refuting encode(decode(b)) == b.  The
repository's own go-fuzz harness asserts byte-identical re-encoding, so
this input makes that harness fail: the code contradicts its own test. -/
theorem c1_roundtrip_code_bug :
    unmarshalBinary [0, 1, 0, 3, 7, 128, 0, 251, 45, 73, 122] =
      .ok ⟨1, [⟨7, []⟩]⟩ ∧
    marshalBinary ⟨1, [⟨7, []⟩]⟩ = .ok [0, 1, 0, 2, 7, 0, 186, 202, 103, 192] ∧
    ([0, 1, 0, 2, 7, 0, 186, 202, 103, 192] : List Nat) ≠
      [0, 1, 0, 3, 7, 128, 0, 251, 45, 73, 122] := by
  refine ⟨?_, by decide, by decide⟩
  have hloop : unmarshalTagsLoop [0, 1, 0, 3, 7, 128, 0, 251, 45, 73, 122] 4 []
      = .ok [⟨7, []⟩] := by
    rw [unmarshalTagsLoop_eq]
    have h1 : readTagLength
        (listSlice [0, 1, 0, 3, 7, 128, 0, 251, 45, 73, 122] (4 + 1) (4 + 3))
        = .ok (0, 2) := by decide
    rw [h1]
    norm_num
    rw [unmarshalTagsLoop_eq]
    norm_num [listSlice]
  rw [unmarshalBinary]
  norm_num [listSlice, leUint32, beUint16]
  have h : (251 ||| 45 <<< 8 ||| 73 <<< 16 ||| 122 <<< 24 : Nat)
      = crc32 [0, 1, 0, 3, 7, 128, 0] := by decide
  rw [if_pos h, hloop]

/-- C8: for data length n < 128 writeTagLength emits one byte holding n
with the high bit clear, and for 128 ≤ n ≤ 32767 it emits two bytes with
the high bit of the first byte set; readTagLength applied to each
encoding recovers exactly n and the number of bytes consumed (1 or 2). -/
theorem c8_tag_length_boundary (n : Nat) :
    (n < 128 →
      writeTagLength n [0, 0] = .ok (1, [n, 0]) ∧
      n &&& 0x80 = 0 ∧
      readTagLength [n, 0] = .ok (n, 1)) ∧
    (128 ≤ n → n ≤ 32767 →
      writeTagLength n [0, 0] =
        .ok (2, [0x80 ||| (n &&& 0xff), (n >>> 7) &&& 0xff]) ∧
      (0x80 ||| (n &&& 0xff)) &&& 0x80 ≠ 0 ∧
      readTagLength [0x80 ||| (n &&& 0xff), (n >>> 7) &&& 0xff] = .ok (n, 2)) := by
  constructor
  · intro h
    refine ⟨by simp [writeTagLength, largeTagLength, h], and128_eq_zero h, ?_⟩
    simp [readTagLength, and128_eq_zero h]
  · intro h1 h2
    have hnl : ¬ n < largeTagLength := by simp only [largeTagLength]; omega
    refine ⟨by simp [writeTagLength, largeTagLength, hnl, h1], ?_, ?_⟩
    · simp [or128_and128]
    · have hbit : (0x80 ||| (n &&& 0xff)) &&& 0x80 = 0x80 := or128_and128 _
      simp only [readTagLength, List.length_cons, List.length_nil, List.getD]
      norm_num [hbit]
      exact tagLen_decode_encode n (by omega)

/-- Witness for C8 at the boundary: length 127 encodes in one byte,
length 128 in two bytes, and both decode back exactly. -/
theorem c8_witness :
    (writeTagLength 127 [0, 0] = .ok (1, [127, 0]) ∧
      readTagLength [127, 0] = .ok (127, 1)) ∧
    (writeTagLength 128 [0, 0] =
        .ok (2, [0x80 ||| (128 &&& 0xff), (128 >>> 7) &&& 0xff]) ∧
      readTagLength [0x80 ||| (128 &&& 0xff), (128 >>> 7) &&& 0xff] =
        .ok (128, 2)) :=
  ⟨⟨((c8_tag_length_boundary 127).1 (by norm_num)).1,
    ((c8_tag_length_boundary 127).1 (by norm_num)).2.2⟩,
   ⟨((c8_tag_length_boundary 128).2 (by norm_num) (by norm_num)).1,
    ((c8_tag_length_boundary 128).2 (by norm_num) (by norm_num)).2.2⟩⟩

/-- C7: Execute arms the deadline only for a nonzero timeout, then
marshals, writes, reads into the fixed MaxPacketSize buffer, and
unmarshals exactly the bytes read; whichever stage fails first determines
the returned error verbatim. -/
theorem c7_execute_pipeline (timeout : Nat) (conn : Conn) (req : Packet) :
    (timeout ≠ 0 → ∀ e, conn.setDeadlineErr = some e →
      execute timeout conn req = .error e) ∧
    ((timeout = 0 ∨ conn.setDeadlineErr = none) →
      (∀ e, marshalBinary req = .error e → execute timeout conn req = .error e) ∧
      (∀ pb, marshalBinary req = .ok pb →
        (∀ e, conn.writeErr = some e → execute timeout conn req = .error e) ∧
        (conn.writeErr = none →
          (∀ e, conn.readRes = .error e → execute timeout conn req = .error e) ∧
          (∀ bs, conn.readRes = .ok bs →
            execute timeout conn req = unmarshalBinary (bs.take MaxPacketSize))))) := by
  have hds : ∀ (h : timeout = 0 ∨ conn.setDeadlineErr = none),
      (if timeout ≠ 0 then conn.setDeadlineErr else none) = none := by
    rintro (h | h) <;> simp [h]
  refine ⟨fun ht e he => by simp [execute, ht, he], fun hd => ⟨?_, ?_⟩⟩
  · intro e he
    simp [execute, hds hd, he]
  · intro pb hpb
    refine ⟨fun e he => by simp [execute, hds hd, hpb, he], fun hw => ⟨?_, ?_⟩⟩
    · intro e he
      simp [execute, hds hd, hpb, hw, he]
    · intro bs hbs
      cases hu : unmarshalBinary (bs.take MaxPacketSize) with
      | error e => simp [execute, hds hd, hpb, hw, hbs, hu]
      | ok rep => simp [execute, hds hd, hpb, hw, hbs, hu]

/-- Witness for C7: a concrete all-stages-succeed run. -/
theorem c7_witness :
    execute 0 ⟨none, none, .ok [0, 1, 0, 0, 43, 181, 134, 32]⟩ ⟨1, []⟩ =
      unmarshalBinary ([0, 1, 0, 0, 43, 181, 134, 32].take MaxPacketSize) :=
  ((((((c7_execute_pipeline 0 ⟨none, none, .ok [0, 1, 0, 0, 43, 181, 134, 32]⟩
    ⟨1, []⟩).2 (Or.inl rfl)).2) [0, 1, 0, 0, 43, 181, 134, 32] (by decide)).2
    rfl).2) [0, 1, 0, 0, 43, 181, 134, 32] rfl
/-- The enumerator visits exactly the indices before the first failing
query when that failure is the IsNotExist sentinel, and succeeds. -/
theorem forEachTunerAux_notExist (debug fn : Nat → Except GoErr Unit) (e : GoErr)
    (he : IsNotExist e = true) :
    ∀ (n fuel s : Nat), n < fuel →
    (∀ i, i < n → debug (s + i) = .ok () ∧ fn (s + i) = .ok ()) →
    debug (s + n) = .error e →
    forEachTunerAux debug fn fuel s = some (List.range' s n, none) := by
  intro n
  induction n with
  | zero =>
    intro fuel s hf hok hd
    match fuel, hf with
    | fuel + 1, _ =>
      simp only [forEachTunerAux]
      rw [show s + 0 = s from rfl] at hd
      rw [hd]
      simp [he, List.range']
  | succ n ih =>
    intro fuel s hf hok hd
    match fuel, hf with
    | fuel + 1, _ =>
      simp only [forEachTunerAux]
      have h0 := hok 0 (Nat.succ_pos n)
      rw [show s + 0 = s from rfl] at h0
      rw [h0.1, h0.2]
      have hrec := ih fuel (s + 1) (by omega)
        (fun i hi => by
          have := hok (i + 1) (by omega)
          rwa [show s + (i + 1) = s + 1 + i by omega] at this)
        (by rwa [show s + 1 + n = s + (n + 1) by omega])
      rw [hrec]
      simp [List.range'_succ]
/-- The enumerator surfaces a non-IsNotExist query failure unchanged,
having visited exactly the earlier indices. -/
theorem forEachTunerAux_fatal (debug fn : Nat → Except GoErr Unit) (e : GoErr)
    (he : IsNotExist e = false) :
    ∀ (n fuel s : Nat), n < fuel →
    (∀ i, i < n → debug (s + i) = .ok () ∧ fn (s + i) = .ok ()) →
    debug (s + n) = .error e →
    forEachTunerAux debug fn fuel s = some (List.range' s n, some e) := by
  intro n
  induction n with
  | zero =>
    intro fuel s hf hok hd
    match fuel, hf with
    | fuel + 1, _ =>
      simp only [forEachTunerAux]
      rw [show s + 0 = s from rfl] at hd
      rw [hd]
      simp [he, List.range']
  | succ n ih =>
    intro fuel s hf hok hd
    match fuel, hf with
    | fuel + 1, _ =>
      simp only [forEachTunerAux]
      have h0 := hok 0 (Nat.succ_pos n)
      rw [show s + 0 = s from rfl] at h0
      rw [h0.1, h0.2]
      have hrec := ih fuel (s + 1) (by omega)
        (fun i hi => by
          have := hok (i + 1) (by omega)
          rwa [show s + (i + 1) = s + 1 + i by omega] at this)
        (by rwa [show s + 1 + n = s + (n + 1) by omega])
      rw [hrec]
      simp [List.range'_succ]

/-- The enumerator surfaces a callback failure unchanged; the failing
index itself was visited. -/
theorem forEachTunerAux_fnErr (debug fn : Nat → Except GoErr Unit) (e : GoErr) :
    ∀ (n fuel s : Nat), n < fuel →
    (∀ i, i < n → debug (s + i) = .ok () ∧ fn (s + i) = .ok ()) →
    debug (s + n) = .ok () → fn (s + n) = .error e →
    forEachTunerAux debug fn fuel s = some (List.range' s (n + 1), some e) := by
  intro n
  induction n with
  | zero =>
    intro fuel s hf hok hd hfn
    match fuel, hf with
    | fuel + 1, _ =>
      simp only [forEachTunerAux]
      rw [show s + 0 = s from rfl] at hd hfn
      rw [hd, hfn]
      simp [List.range'_succ, List.range']
  | succ n ih =>
    intro fuel s hf hok hd hfn
    match fuel, hf with
    | fuel + 1, _ =>
      simp only [forEachTunerAux]
      have h0 := hok 0 (Nat.succ_pos n)
      rw [show s + 0 = s from rfl] at h0
      rw [h0.1, h0.2]
      have hrec := ih fuel (s + 1) (by omega)
        (fun i hi => by
          have := hok (i + 1) (by omega)
          rwa [show s + (i + 1) = s + 1 + i by omega] at this)
        (by rwa [show s + 1 + n = s + (n + 1) by omega])
        (by rwa [show s + 1 + n = s + (n + 1) by omega])
      rw [hrec]
      simp [List.range'_succ]

/-- C6: if the per-index debug query succeeds below k and fails at k with
the IsNotExist sentinel, ForEachTuner invokes the callback exactly once
for each index 0..k-1 in increasing order and returns success; a
non-sentinel query failure or a callback failure is returned unchanged
and stops iteration there. -/
theorem c6_enumerator (debug fn : Nat → Except GoErr Unit) (k fuel : Nat) (e : GoErr) :
    (k < fuel →
      (∀ i, i < k → debug i = .ok () ∧ fn i = .ok ()) →
      debug k = .error e → IsNotExist e = true →
      forEachTuner debug fn fuel = some (List.range k, none)) ∧
    (k < fuel →
      (∀ i, i < k → debug i = .ok () ∧ fn i = .ok ()) →
      debug k = .error e → IsNotExist e = false →
      forEachTuner debug fn fuel = some (List.range k, some e)) ∧
    (k < fuel →
      (∀ i, i < k → debug i = .ok () ∧ fn i = .ok ()) →
      debug k = .ok () → fn k = .error e →
      forEachTuner debug fn fuel = some (List.range (k + 1), some e)) := by
  refine ⟨fun hf hok hd he => ?_, fun hf hok hd he => ?_, fun hf hok hd hfn => ?_⟩
  · rw [forEachTuner, List.range_eq_range']
    exact forEachTunerAux_notExist debug fn e he k fuel 0 hf
      (by simpa using hok) (by simpa using hd)
  · rw [forEachTuner, List.range_eq_range']
    exact forEachTunerAux_fatal debug fn e he k fuel 0 hf
      (by simpa using hok) (by simpa using hd)
  · rw [forEachTuner, List.range_eq_range']
    exact forEachTunerAux_fnErr debug fn e k fuel 0 hf
      (by simpa using hok) (by simpa using hd) (by simpa using hfn)

/-- Witness for C6: a device reporting "does not exist" from index 2
yields callbacks for indices 0 and 1 only, and success. -/
theorem c6_witness :
    forEachTuner
      (fun i => if i < 2 then .ok () else .error (.deviceErr unknownGetSet))
      (fun _ => .ok ()) 3 = some (List.range 2, none) :=
  (c6_enumerator
    (fun i => if i < 2 then .ok () else .error (.deviceErr unknownGetSet))
    (fun _ => .ok ()) 2 3 (.deviceErr unknownGetSet)).1
    (by norm_num)
    (fun i hi => by constructor <;> simp [hi])
    (by norm_num) (by decide)

/-- parseTags leaves each DiscoveredDevice field unchanged when no tag of
the corresponding recognized type occurs. -/
theorem parseTags_preserve (ts : List Tag) :
    ∀ d d', parseTags d ts = .ok d' →
      ((∀ t ∈ ts, t.type ≠ TagDeviceType) → d'.type = d.type) ∧
      ((∀ t ∈ ts, t.type ≠ TagDeviceId) → d'.id = d.id) ∧
      ((∀ t ∈ ts, t.type ≠ TagBaseUrl) → d'.url = d.url) ∧
      ((∀ t ∈ ts, t.type ≠ TagTunerCount) → d'.tuners = d.tuners) := by
  induction ts with
  | nil =>
    intro d d' h
    simp only [parseTags] at h
    cases h
    exact ⟨fun _ => rfl, fun _ => rfl, fun _ => rfl, fun _ => rfl⟩
  | cons t ts ih =>
    intro d d' h
    have tail : ∀ (P : Tag → Prop), (∀ u ∈ t :: ts, P u) → ∀ u ∈ ts, P u :=
      fun P hp u hu => hp u (by simp [hu])
    simp only [parseTags] at h
    by_cases h1 : t.type = TagDeviceType
    · rw [if_pos h1] at h
      split at h
      · cases h
      · exact ⟨fun hno => absurd h1 (hno t (by simp)),
          fun hno => by simpa using (ih _ _ h).2.1 (tail _ hno),
          fun hno => by simpa using (ih _ _ h).2.2.1 (tail _ hno),
          fun hno => by simpa using (ih _ _ h).2.2.2 (tail _ hno)⟩
    · rw [if_neg h1] at h
      by_cases h2 : t.type = TagDeviceId
      · rw [if_pos h2] at h
        split at h
        · cases h
        · exact ⟨fun hno => by simpa using (ih _ _ h).1 (tail _ hno),
            fun hno => absurd h2 (hno t (by simp)),
            fun hno => by simpa using (ih _ _ h).2.2.1 (tail _ hno),
            fun hno => by simpa using (ih _ _ h).2.2.2 (tail _ hno)⟩
      · rw [if_neg h2] at h
        by_cases h3 : t.type = TagBaseUrl
        · rw [if_pos h3] at h
          exact ⟨fun hno => by simpa using (ih _ _ h).1 (tail _ hno),
            fun hno => by simpa using (ih _ _ h).2.1 (tail _ hno),
            fun hno => absurd h3 (hno t (by simp)),
            fun hno => by simpa using (ih _ _ h).2.2.2 (tail _ hno)⟩
        · rw [if_neg h3] at h
          by_cases h4 : t.type = TagTunerCount
          · rw [if_pos h4] at h
            split at h
            · cases h
            · exact ⟨fun hno => by simpa using (ih _ _ h).1 (tail _ hno),
                fun hno => by simpa using (ih _ _ h).2.1 (tail _ hno),
                fun hno => by simpa using (ih _ _ h).2.2.1 (tail _ hno),
                fun hno => absurd h4 (hno t (by simp))⟩
          · rw [if_neg h4] at h
            exact ⟨fun hno => (ih _ _ h).1 (tail _ hno),
              fun hno => (ih _ _ h).2.1 (tail _ hno),
              fun hno => (ih _ _ h).2.2.1 (tail _ hno),
              fun hno => (ih _ _ h).2.2.2 (tail _ hno)⟩
/-- C4: once the cancellation context has fired, Discover returns the
io.EOF end-of-stream sentinel: both when it had fired before Discover was
called, and when the blocking read fails with the context fired. -/
theorem c4_discover_cancellation (ce : CtxErr) (events : List DiscEvent)
    (e : GoErr) (rest : List DiscEvent) :
    Discover (some ce) events = some (.error .ioEOF) ∧
    Discover none ({ read := .error e, ctxErr := some ce } :: rest) =
      some (.error .ioEOF) := by
  constructor
  · rfl
  · simp [Discover, discoverLoop, discoverOnce]

/-- Witness for C4 at concrete cancellation events. -/
theorem c4_witness :
    Discover (some .canceled) [] = some (.error .ioEOF) ∧
    Discover none
      [{ read := .error (.other "use of closed network connection"),
         ctxErr := some .canceled }] = some (.error .ioEOF) :=
  c4_discover_cancellation .canceled []
    (.other "use of closed network connection") []

/-- C5: a datagram that fails to decode, or decodes to a non-discover-
reply type, or lacks a device-type or device-id tag, never terminates
Discover: the read loop continues exactly as if the datagram had not
arrived. -/
theorem c5_malformed_retry (data : List Nat) (addr : String)
    (ce : Option CtxErr) (rest : List DiscEvent) :
    ((∃ e, unmarshalBinary data = .error e) ∨
     (∃ p, unmarshalBinary data = .ok p ∧
        (p.type ≠ TypeDiscoverRpy ∨
         (∀ t ∈ p.tags, t.type ≠ TagDeviceType) ∨
         (∀ t ∈ p.tags, t.type ≠ TagDeviceId)))) →
    Discover none ({ read := .ok (data, addr), ctxErr := ce } :: rest) =
      Discover none rest := by
  intro hcond
  simp only [Discover]
  rcases hcond with ⟨e, he⟩ | ⟨p, hp, hbad⟩
  · simp [discoverLoop, discoverOnce, he]
  · have hdev : ∃ de, newDiscoveredDevice addr p = .error de := by
      by_cases hrpy : p.type = TypeDiscoverRpy
      · cases hpt : parseTags { addr := addr } p.tags with
        | error e2 => exact ⟨e2, by simp [newDiscoveredDevice, hrpy, hpt]⟩
        | ok device =>
          rcases hbad with hbad | hbad | hbad
          · exact absurd hrpy hbad
          · have htype : device.type = 0 := (parseTags_preserve _ _ _ hpt).1 hbad
            exact ⟨.noType, by simp [newDiscoveredDevice, hrpy, hpt, htype]⟩
          · have hid : device.id = [] := (parseTags_preserve _ _ _ hpt).2.1 hbad
            by_cases htype : device.type = 0
            · exact ⟨.noType, by simp [newDiscoveredDevice, hrpy, hpt, htype]⟩
            · exact ⟨.noId, by simp [newDiscoveredDevice, hrpy, hpt, htype, hid]⟩
      · exact ⟨.wrongType p.type, by simp [newDiscoveredDevice, hrpy]⟩
    rcases hdev with ⟨de, hde⟩
    simp [discoverLoop, discoverOnce, hp, hde]

/-- Witness for C5: an undecodable 3-byte datagram is skipped. -/
theorem c5_witness :
    Discover none
      [{ read := .ok ([1, 2, 3], "192.0.2.1:65001"), ctxErr := none },
       { read := .error (.other "io"), ctxErr := none }] =
    Discover none [{ read := .error (.other "io"), ctxErr := none }] :=
  c5_malformed_retry [1, 2, 3] "192.0.2.1:65001" none
    [{ read := .error (.other "io"), ctxErr := none }]
    (Or.inl ⟨.unexpectedEOF, by decide⟩)
/-- parseTags processes an appended tag list sequentially. -/
theorem parseTags_append (l1 l2 : List Tag) :
    ∀ d, parseTags d (l1 ++ l2) =
      match parseTags d l1 with
      | .error e => .error e
      | .ok d1 => parseTags d1 l2 := by
  induction l1 with
  | nil => intro d; simp [parseTags]
  | cons t l1 ih =>
    intro d
    simp only [List.cons_append, parseTags]
    by_cases h1 : t.type = TagDeviceType
    · simp only [if_pos h1]
      by_cases hl : t.data.length ≠ 4
      · simp only [if_pos hl]
      · simp only [if_neg hl]
        exact ih _
    · simp only [if_neg h1]
      by_cases h2 : t.type = TagDeviceId
      · simp only [if_pos h2]
        by_cases hl : t.data.length ≠ 4
        · simp only [if_pos hl]
        · simp only [if_neg hl]
          exact ih _
      · simp only [if_neg h2]
        by_cases h3 : t.type = TagBaseUrl
        · simp only [if_pos h3]
          exact ih _
        · simp only [if_neg h3]
          by_cases h4 : t.type = TagTunerCount
          · simp only [if_pos h4]
            by_cases hl : t.data.length ≠ 1
            · simp only [if_pos hl]
            · simp only [if_neg hl]
              exact ih _
          · simp only [if_neg h4]
            exact ih _

/-- The Query tag scan processes an appended tag list sequentially. -/
theorem queryScanTags_append (l1 l2 : List Tag) :
    ∀ n v, queryScanTags (l1 ++ l2) n v =
      match queryScanTags l1 n v with
      | .error e => .error e
      | .ok (n1, v1) => queryScanTags l2 n1 v1 := by
  induction l1 with
  | nil => intro n v; simp [queryScanTags]
  | cons t l1 ih =>
    intro n v
    simp only [List.cons_append, queryScanTags]
    by_cases h1 : t.type = TagGetsetName
    · simp only [if_pos h1]
      exact ih _ _
    · simp only [if_neg h1]
      by_cases h2 : t.type = TagGetsetValue
      · simp only [if_pos h2]
        exact ih _ _
      · simp only [if_neg h2]
        by_cases h3 : t.type = TagErrorMessage
        · simp only [if_pos h3]
        · simp only [if_neg h3]
          exact ih _ _

/-- The Query tag scan leaves the name accumulator unchanged when no
name tag occurs. -/
theorem queryScanTags_name_eq (ts : List Tag) :
    ∀ n v nv, (∀ u ∈ ts, u.type ≠ TagGetsetName) →
    queryScanTags ts n v = .ok nv → nv.1 = n := by
  induction ts with
  | nil =>
    intro n v nv _ h
    simp only [queryScanTags] at h
    cases h
    rfl
  | cons t ts ih =>
    intro n v nv hno h
    have ht : t.type ≠ TagGetsetName := hno t (by simp)
    have hno2 : ∀ u ∈ ts, u.type ≠ TagGetsetName := fun u hu => hno u (by simp [hu])
    simp only [queryScanTags, if_neg ht] at h
    by_cases h2 : t.type = TagGetsetValue
    · rw [if_pos h2] at h
      exact ih _ _ _ hno2 h
    · rw [if_neg h2] at h
      by_cases h3 : t.type = TagErrorMessage
      · rw [if_pos h3] at h
        cases h
      · rw [if_neg h3] at h
        exact ih _ _ _ hno2 h
/-- The Query tag scan leaves the value accumulator unchanged when no
value tag occurs. -/
theorem queryScanTags_value_eq (ts : List Tag) :
    ∀ n v nv, (∀ u ∈ ts, u.type ≠ TagGetsetValue) →
    queryScanTags ts n v = .ok nv → nv.2 = v := by
  induction ts with
  | nil =>
    intro n v nv _ h
    simp only [queryScanTags] at h
    cases h
    rfl
  | cons t ts ih =>
    intro n v nv hno h
    have ht : t.type ≠ TagGetsetValue := hno t (by simp)
    have hno2 : ∀ u ∈ ts, u.type ≠ TagGetsetValue := fun u hu => hno u (by simp [hu])
    simp only [queryScanTags] at h
    by_cases h1 : t.type = TagGetsetName
    · rw [if_pos h1] at h
      exact ih _ _ _ hno2 h
    · rw [if_neg h1, if_neg ht] at h
      by_cases h3 : t.type = TagErrorMessage
      · rw [if_pos h3] at h
        cases h
      · rw [if_neg h3] at h
        exact ih _ _ _ hno2 h

/-- The Query tag scan cannot fail while no error tag occurs. -/
theorem queryScanTags_ok_of_no_err (ts : List Tag) :
    ∀ n v, (∀ u ∈ ts, u.type ≠ TagErrorMessage) →
    ∃ nv, queryScanTags ts n v = .ok nv := by
  induction ts with
  | nil => intro n v _; exact ⟨(n, v), rfl⟩
  | cons t ts ih =>
    intro n v hno
    have ht : t.type ≠ TagErrorMessage := hno t (by simp)
    have hno2 : ∀ u ∈ ts, u.type ≠ TagErrorMessage := fun u hu => hno u (by simp [hu])
    simp only [queryScanTags]
    by_cases h1 : t.type = TagGetsetName
    · rw [if_pos h1]
      exact ih _ _ hno2
    · rw [if_neg h1]
      by_cases h2 : t.type = TagGetsetValue
      · rw [if_pos h2]
        exact ih _ _ hno2
      · rw [if_neg h2, if_neg ht]
        exact ih _ _ hno2

/-- C3 counterexample: both consumers use the last occurrence of a
recognized tag type, not the first: with two device-ID tags parseTags
reports the second ID, and with two name tags the Query scan keeps the
second name. -/
theorem c3_counterexample :
    (parseTags {} [⟨TagDeviceId, [0, 0, 0, 1]⟩, ⟨TagDeviceId, [0, 0, 0, 2]⟩] =
        .ok { id := hexEncode [0, 0, 0, 2] } ∧
      hexEncode [0, 0, 0, 2] ≠ hexEncode [0, 0, 0, 1]) ∧
    (queryScanTags [⟨TagGetsetName, [65, 0]⟩, ⟨TagGetsetName, [66, 0]⟩] none none =
        .ok (some [66, 0], none) ∧
      ([66, 0] : List Nat) ≠ [65, 0]) := by
  exact ⟨⟨by decide, by decide⟩, ⟨by decide, by decide⟩⟩

/-- C3 amended: for every reply packet containing more than one tag of
the same recognized type, the Query reply scan and the discovery
parseTags scan use the LAST occurrence of that recognized type - for
every recognized type of each consumer: device type, device ID, base
URL and tuner count for parseTags, and name and value for the Query
scan - while Query's error tag, by contrast, short-circuits at its
first occurrence. -/
theorem c3_last_occurrence_wins :
    (∀ (d d' : DiscoveredDevice) (ts1 ts2 : List Tag) (t : Tag),
      t.type = TagDeviceType → t.data.length = 4 →
      (∀ u ∈ ts2, u.type ≠ TagDeviceType) →
      parseTags d (ts1 ++ t :: ts2) = .ok d' →
      d'.type = beUint32 t.data) ∧
    (∀ (d d' : DiscoveredDevice) (ts1 ts2 : List Tag) (t : Tag),
      t.type = TagDeviceId → t.data.length = 4 →
      (∀ u ∈ ts2, u.type ≠ TagDeviceId) →
      parseTags d (ts1 ++ t :: ts2) = .ok d' →
      d'.id = hexEncode t.data) ∧
    (∀ (d d' : DiscoveredDevice) (ts1 ts2 : List Tag) (t : Tag),
      t.type = TagBaseUrl →
      (∀ u ∈ ts2, u.type ≠ TagBaseUrl) →
      parseTags d (ts1 ++ t :: ts2) = .ok d' →
      d'.url = some t.data) ∧
    (∀ (d d' : DiscoveredDevice) (ts1 ts2 : List Tag) (t : Tag),
      t.type = TagTunerCount → t.data.length = 1 →
      (∀ u ∈ ts2, u.type ≠ TagTunerCount) →
      parseTags d (ts1 ++ t :: ts2) = .ok d' →
      d'.tuners = t.data.getD 0 0) ∧
    (∀ (ts1 ts2 : List Tag) (t : Tag) (n v : Option (List Nat))
        (nv : Option (List Nat) × Option (List Nat)),
      t.type = TagGetsetName →
      (∀ u ∈ ts2, u.type ≠ TagGetsetName) →
      queryScanTags (ts1 ++ t :: ts2) n v = .ok nv →
      nv.1 = some t.data) ∧
    (∀ (ts1 ts2 : List Tag) (t : Tag) (n v : Option (List Nat))
        (nv : Option (List Nat) × Option (List Nat)),
      t.type = TagGetsetValue →
      (∀ u ∈ ts2, u.type ≠ TagGetsetValue) →
      queryScanTags (ts1 ++ t :: ts2) n v = .ok nv →
      nv.2 = some t.data) ∧
    (∀ (ts1 ts2 : List Tag) (t : Tag) (n v : Option (List Nat)),
      t.type = TagErrorMessage →
      (∀ u ∈ ts1, u.type ≠ TagErrorMessage) →
      queryScanTags (ts1 ++ t :: ts2) n v =
        .error (.deviceErr (newErrorMsg t.data))) := by
  refine ⟨?_, ?_, ?_, ?_, ?_, ?_, ?_⟩
  · intro d d' ts1 ts2 t ht hlen hno h
    rw [parseTags_append] at h
    cases h1 : parseTags d ts1 with
    | error e => rw [h1] at h; cases h
    | ok d1 =>
      rw [h1] at h
      have hl : ¬ t.data.length ≠ 4 := by omega
      simp only [parseTags, if_pos ht, if_neg hl] at h
      exact (parseTags_preserve ts2 _ _ h).1 hno
  · intro d d' ts1 ts2 t ht hlen hno h
    rw [parseTags_append] at h
    cases h1 : parseTags d ts1 with
    | error e => rw [h1] at h; cases h
    | ok d1 =>
      rw [h1] at h
      have ht1 : t.type ≠ TagDeviceType := by rw [ht]; decide
      have hl : ¬ t.data.length ≠ 4 := by omega
      simp only [parseTags, if_neg ht1, if_pos ht, if_neg hl] at h
      exact (parseTags_preserve ts2 _ _ h).2.1 hno
  · intro d d' ts1 ts2 t ht hno h
    rw [parseTags_append] at h
    cases h1 : parseTags d ts1 with
    | error e => rw [h1] at h; cases h
    | ok d1 =>
      rw [h1] at h
      have ht1 : t.type ≠ TagDeviceType := by rw [ht]; decide
      have ht2 : t.type ≠ TagDeviceId := by rw [ht]; decide
      simp only [parseTags, if_neg ht1, if_neg ht2, if_pos ht] at h
      exact (parseTags_preserve ts2 _ _ h).2.2.1 hno
  · intro d d' ts1 ts2 t ht hlen hno h
    rw [parseTags_append] at h
    cases h1 : parseTags d ts1 with
    | error e => rw [h1] at h; cases h
    | ok d1 =>
      rw [h1] at h
      have ht1 : t.type ≠ TagDeviceType := by rw [ht]; decide
      have ht2 : t.type ≠ TagDeviceId := by rw [ht]; decide
      have ht3 : t.type ≠ TagBaseUrl := by rw [ht]; decide
      have hl : ¬ t.data.length ≠ 1 := by omega
      simp only [parseTags, if_neg ht1, if_neg ht2, if_neg ht3, if_pos ht,
        if_neg hl] at h
      exact (parseTags_preserve ts2 _ _ h).2.2.2 hno
  · intro ts1 ts2 t n v nv ht hno h
    rw [queryScanTags_append] at h
    cases h1 : queryScanTags ts1 n v with
    | error e => rw [h1] at h; cases h
    | ok nv1 =>
      rw [h1] at h
      simp only [queryScanTags, if_pos ht] at h
      exact queryScanTags_name_eq ts2 _ _ _ hno h
  · intro ts1 ts2 t n v nv ht hno h
    rw [queryScanTags_append] at h
    cases h1 : queryScanTags ts1 n v with
    | error e => rw [h1] at h; cases h
    | ok nv1 =>
      rw [h1] at h
      have htn : t.type ≠ TagGetsetName := by rw [ht]; decide
      simp only [queryScanTags, if_neg htn, if_pos ht] at h
      exact queryScanTags_value_eq ts2 _ _ _ hno h
  · intro ts1 ts2 t n v ht hno
    rw [queryScanTags_append]
    obtain ⟨nv1, hok⟩ := queryScanTags_ok_of_no_err ts1 n v hno
    rw [hok]
    have htn : t.type ≠ TagGetsetName := by rw [ht]; decide
    have htv : t.type ≠ TagGetsetValue := by rw [ht]; decide
    simp only [queryScanTags, if_neg htn, if_neg htv, if_pos ht]

/-- Witness for C3 amended, at a two-ID-tag concrete packet. -/
theorem c3_witness :
    ({ id := [48, 48, 48, 48, 48, 48, 48, 50] } : DiscoveredDevice).id =
      hexEncode [0, 0, 0, 2] :=
  c3_last_occurrence_wins.2.1 {} { id := [48, 48, 48, 48, 48, 48, 48, 50] }
    [⟨TagDeviceId, [0, 0, 0, 1]⟩] [] ⟨TagDeviceId, [0, 0, 0, 2]⟩
    rfl (by decide) (by simp) (by decide)

/-- readTagLength never fails on a buffer of exactly two bytes. -/
theorem readTagLength_no_err {s : List Nat} (h : s.length = 2) {e : GoErr} :
    readTagLength s ≠ .error e := by
  unfold readTagLength
  rw [if_neg (by omega)]
  split <;> simp

/-- The decode tag loop fails exactly when the declared-tag-length check
trips: its only other error source, readTagLength, cannot fail because
the loop always passes it a two-byte window. -/
theorem loop_isErr_eq_tagsOverrun (b : List Nat) :
    ∀ n i acc, b.length - i ≤ n →
    isErr (unmarshalTagsLoop b i acc) = tagsOverrun b i := by
  intro n
  induction n with
  | zero =>
    intro i acc hle
    rw [unmarshalTagsLoop_eq, tagsOverrun_eq]
    have hni : ¬ i < b.length - 4 := by omega
    simp [hni, isErr]
  | succ n ih =>
    intro i acc hle
    rw [unmarshalTagsLoop_eq, tagsOverrun_eq]
    by_cases hlt : i < b.length - 4
    · simp only [if_pos hlt]
      cases hr : readTagLength (listSlice b (i + 1) (i + 3)) with
      | error e =>
        have hlen : (listSlice b (i + 1) (i + 3)).length = 2 := by
          simp [listSlice]
          omega
        exact absurd hr (readTagLength_no_err hlen)
      | ok tc =>
        obtain ⟨tlen, consumed⟩ := tc
        have hc := readTagLength_consumed_pos hr
        simp only []
        split_ifs with hover
        · simp [isErr]
        · exact ih (i + 1 + consumed + tlen) _ (by omega)
    · simp [hlt, isErr]
/-- C2: UnmarshalBinary returns an error if and only if the input is
shorter than 8 bytes, or the stored little-endian checksum differs from
the CRC-32 recomputed over all bytes but the last 4, or the declared
big-endian payload length does not equal len(input)-8, or some tag's
declared data length would read past the position where the checksum
begins; and a valid 8-byte input with payload length 0 decodes to a
Packet with no tags. -/
theorem c2_decode_failure_iff (b : List Nat) :
    (isErr (unmarshalBinary b) = true ↔
      (b.length < 8 ∨
       leUint32 (b.drop (b.length - 4)) ≠ crc32 (b.take (b.length - 4)) ∨
       beUint16 (listSlice b 2 4) ≠ b.length - 8 ∨
       tagsOverrun b 4 = true)) ∧
    (b.length = 8 →
      leUint32 (b.drop 4) = crc32 (b.take 4) →
      beUint16 (listSlice b 2 4) = 0 →
      unmarshalBinary b = .ok ⟨beUint16 (b.take 2), []⟩) := by
  have hloop := loop_isErr_eq_tagsOverrun b (b.length - 4) 4 [] (by omega)
  constructor
  · rw [unmarshalBinary]
    by_cases h1 : b.length < 8
    · simp [h1, isErr]
    · simp only [if_neg h1]
      by_cases h2 : leUint32 (b.drop (b.length - 4)) ≠ crc32 (b.take (b.length - 4))
      · simp [h2, isErr]
      · simp only [if_neg h2]
        push_neg at h2
        by_cases h3 : beUint16 (listSlice b 2 4) ≠ b.length - 8
        · simp [h3, isErr]
        · simp only [if_neg h3]
          push_neg at h3
          by_cases h4 : beUint16 (listSlice b 2 4) = 0
          · simp only [if_pos h4]
            have hlen8 : b.length = 8 := by omega
            have hto : tagsOverrun b 4 = false := by
              rw [tagsOverrun_eq]
              have : ¬ 4 < b.length - 4 := by omega
              simp [this]
            simp [isErr, h1, h2, h3, hto]
          · simp only [if_neg h4]
            cases hl : unmarshalTagsLoop b 4 [] with
            | error e =>
              rw [hl] at hloop
              simp [isErr, h1, h2, h3, ← hloop]
            | ok tags =>
              rw [hl] at hloop
              simp [isErr, h1, h2, h3, ← hloop]
  · intro hlen hcrc hzero
    rw [unmarshalBinary]
    rw [if_neg (by omega)]
    simp only [hlen]
    norm_num [hcrc, hzero]

/-- Witness for C2: a concrete valid 8-byte packet decodes to a Packet
with no tags. -/
theorem c2_witness :
    unmarshalBinary [0, 1, 0, 0, 43, 181, 134, 32] =
      .ok ⟨beUint16 ([0, 1, 0, 0, 43, 181, 134, 32].take 2), []⟩ :=
  (c2_decode_failure_iff _).2 rfl (by decide) (by decide)

/-- A successful readTagLength consumes at most two bytes. -/
theorem readTagLength_consumed_le_two {b : List Nat} {t c : Nat}
    (h : readTagLength b = .ok (t, c)) : c ≤ 2 := by
  unfold readTagLength at h
  split at h
  · exact absurd h (by simp)
  · split at h
    · cases h; omega
    · cases h; omega

/-- The bounds-checked tag loop never hits an out-of-bounds access and
agrees with the unchecked embedding on every input. -/
theorem loopChk_eq_some_loop (b : List Nat) :
    ∀ n i acc, b.length - i ≤ n →
    unmarshalTagsLoopChk b i acc = some (unmarshalTagsLoop b i acc) := by
  intro n
  induction n with
  | zero =>
    intro i acc hle
    rw [unmarshalTagsLoopChk_eq, unmarshalTagsLoop_eq]
    have hni : ¬ i < b.length - 4 := by omega
    simp [hni]
  | succ n ih =>
    intro i acc hle
    rw [unmarshalTagsLoopChk_eq, unmarshalTagsLoop_eq]
    by_cases hlt : i < b.length - 4
    · simp only [if_pos hlt]
      have hg : i < b.length ∧ i + 3 ≤ b.length := by omega
      rw [if_pos hg]
      cases hr : readTagLength (listSlice b (i + 1) (i + 3)) with
      | error e => rfl
      | ok tc =>
        obtain ⟨tlen, consumed⟩ := tc
        have hc1 := readTagLength_consumed_pos hr
        have hc2 := readTagLength_consumed_le_two hr
        have hj : i + 1 + consumed ≤ b.length := by omega
        simp only [if_pos hj]
        split_ifs with hover hbound
        · rfl
        · exact ih (i + 1 + consumed + tlen) _ (by omega)
        · exfalso
          omega
    · simp [hlt]
/-- C10: UnmarshalBinary is total: on every input byte string, including
adversarial and truncated ones, the bounds-checked decoder (in which any
out-of-range Go index or slice would surface as `none`, i.e. a panic)
returns `some` result, and that result is the embedded decoder's: every
slice index computed during decoding stays within bounds. -/
theorem c10_decode_total (b : List Nat) :
    unmarshalBinaryChk b = some (unmarshalBinary b) := by
  rw [unmarshalBinaryChk, unmarshalBinary]
  by_cases h1 : b.length < 8
  · simp [h1]
  · simp only [if_neg h1]
    have hlen : 8 ≤ b.length := by omega
    have hs1 : sliceChk b (b.length - 4) b.length = some (b.drop (b.length - 4)) := by
      rw [sliceChk, if_pos (by omega)]
      congr 1
      rw [listSlice]
      exact List.take_of_length_le (by simp)
    have hs2 : sliceChk b 0 (b.length - 4) = some (b.take (b.length - 4)) := by
      rw [sliceChk, if_pos (by constructor <;> omega)]
      rw [listSlice]
      simp
    have hs3 : sliceChk b 0 2 = some (b.take 2) := by
      rw [sliceChk, if_pos (by constructor <;> omega)]
      rw [listSlice]
      simp
    have hs4 : sliceChk b 2 4 = some (listSlice b 2 4) := by
      rw [sliceChk, if_pos (by constructor <;> omega)]
    simp only [hs1, hs2, hs3, hs4]
    have hu32 : uint32Chk (b.drop (b.length - 4)) = some (leUint32 (b.drop (b.length - 4))) := by
      rw [uint32Chk, if_pos (by simp; omega)]
    have hu16a : uint16Chk (b.take 2) = some (beUint16 (b.take 2)) := by
      rw [uint16Chk, if_pos (by simp; omega)]
    have hu16b : uint16Chk (listSlice b 2 4) = some (beUint16 (listSlice b 2 4)) := by
      rw [uint16Chk, if_pos (by simp [listSlice]; omega)]
    simp only [hu32, hu16a, hu16b]
    by_cases h2 : leUint32 (b.drop (b.length - 4)) ≠ crc32 (b.take (b.length - 4))
    · simp [h2]
    · simp only [if_neg h2]
      by_cases h3 : beUint16 (listSlice b 2 4) ≠ b.length - 8
      · simp [h3]
      · simp only [if_neg h3]
        by_cases h4 : beUint16 (listSlice b 2 4) = 0
        · simp [h4]
        · simp only [if_neg h4]
          rw [loopChk_eq_some_loop b (b.length - 4) 4 [] (by omega)]
          cases unmarshalTagsLoop b 4 [] <;> rfl

/-- Left commutativity of xor on Nat. -/
theorem xor_left_comm (a b c : Nat) : a ^^^ (b ^^^ c) = b ^^^ (a ^^^ c) := by
  rw [← Nat.xor_assoc, Nat.xor_comm a b, Nat.xor_assoc]

/-- The CRC bit-step is linear over xor. -/
theorem crcBitStep_xor (x y : Nat) :
    crcBitStep (x ^^^ y) = crcBitStep x ^^^ crcBitStep y := by
  unfold crcBitStep
  have hshift : (x ^^^ y) >>> 1 = x >>> 1 ^^^ y >>> 1 := by
    simp only [Nat.shiftRight_succ, Nat.shiftRight_zero]
    exact Nat.xor_div_two
  have hand : (x ^^^ y) &&& 1 = (x &&& 1) ^^^ (y &&& 1) := Nat.and_xor_distrib_right
  have hx2 : x &&& 1 = 0 ∨ x &&& 1 = 1 := by
    rw [Nat.and_one_is_mod]; omega
  have hy2 : y &&& 1 = 0 ∨ y &&& 1 = 1 := by
    rw [Nat.and_one_is_mod]; omega
  have hPP : ∀ a : Nat, crcPoly ^^^ (crcPoly ^^^ a) = a := fun a => by
    rw [← Nat.xor_assoc, Nat.xor_self, Nat.zero_xor]
  rcases hx2 with hx | hx <;> rcases hy2 with hy | hy <;>
    simp only [hx, hy, Nat.xor_zero, Nat.zero_xor, Nat.xor_self] at hand <;>
    simp [hand, hx, hy, hshift, hPP, Nat.xor_assoc, Nat.xor_comm, xor_left_comm]

/-- The CRC bit-step stays within 32 bits. -/
theorem crcBitStep_lt (c : Nat) (h : c < 2 ^ 32) : crcBitStep c < 2 ^ 32 := by
  unfold crcBitStep
  have h1 : c >>> 1 < 2 ^ 32 := by
    simp only [Nat.shiftRight_succ, Nat.shiftRight_zero]
    omega
  split
  · exact Nat.xor_lt_two_pow h1 (by norm_num [crcPoly])
  · exact h1

/-- The CRC bit-step has trivial kernel on 32-bit values: the polynomial
has its top bit set, so a nonzero register stays nonzero. -/
theorem crcBitStep_ne_zero (d : Nat) (hd : d ≠ 0) (hlt : d < 2 ^ 32) :
    crcBitStep d ≠ 0 := by
  unfold crcBitStep
  have hmod : d &&& 1 = d % 2 := Nat.and_one_is_mod d
  have hsh : d >>> 1 = d / 2 := by
    simp [Nat.shiftRight_succ, Nat.shiftRight_zero]
  split
  · next h1 =>
    intro hc
    have : d >>> 1 = crcPoly := Nat.xor_eq_zero.mp hc
    rw [hsh] at this
    have hP : crcPoly = 0xEDB88320 := rfl
    omega
  · next h1 =>
    rw [hsh]
    have : d % 2 = 0 := by omega
    omega
/-- Iterated CRC bit-steps are linear over xor. -/
theorem crcBitSteps_xor (n : Nat) : ∀ x y : Nat,
    crcBitSteps n (x ^^^ y) = crcBitSteps n x ^^^ crcBitSteps n y := by
  induction n with
  | zero => intro x y; rfl
  | succ n ih =>
    intro x y
    simp only [crcBitSteps]
    rw [crcBitStep_xor]
    exact ih _ _

/-- Iterated CRC bit-steps preserve nonzeroness and the 32-bit bound. -/
theorem crcBitSteps_ne_zero (n : Nat) : ∀ d : Nat, d ≠ 0 → d < 2 ^ 32 →
    crcBitSteps n d ≠ 0 ∧ crcBitSteps n d < 2 ^ 32 := by
  induction n with
  | zero => intro d hd hlt; exact ⟨hd, hlt⟩
  | succ n ih =>
    intro d hd hlt
    simp only [crcBitSteps]
    exact ih _ (crcBitStep_ne_zero d hd hlt) (crcBitStep_lt d hlt)

/-- Iterated CRC bit-steps compose additively. -/
theorem crcBitSteps_comp (n : Nat) : ∀ (m : Nat) (c : Nat),
    crcBitSteps m (crcBitSteps n c) = crcBitSteps (n + m) c := by
  induction n with
  | zero => intro m c; rw [Nat.zero_add]; rfl
  | succ n ih =>
    intro m c
    rw [show n + 1 + m = (n + m) + 1 from by omega]
    simp only [crcBitSteps]
    exact ih m (crcBitStep c)

/-- Running the CRC over a byte list from a register xor-perturbed by d
perturbs the result by the bit-steps image of d. -/
theorem foldl_crcByteStep_xor (l : List Nat) : ∀ c d : Nat,
    l.foldl crcByteStep (c ^^^ d) =
      l.foldl crcByteStep c ^^^ crcBitSteps (8 * l.length) d := by
  induction l with
  | nil => intro c d; simp [crcBitSteps]
  | cons x l ih =>
    intro c d
    simp only [List.foldl_cons]
    have hstep : crcByteStep (c ^^^ d) x = crcByteStep c x ^^^ crcBitSteps 8 d := by
      unfold crcByteStep
      rw [show c ^^^ d ^^^ x = (c ^^^ x) ^^^ d by
        rw [Nat.xor_assoc, Nat.xor_assoc, Nat.xor_comm d x]]
      exact crcBitSteps_xor 8 _ _
    rw [hstep, ih, crcBitSteps_comp]
    congr 2
    simp [List.length_cons]
    ring

/-- Changing one byte of the input by a nonzero 32-bit xor always changes
the CRC-32 checksum. -/
theorem crc32_flip_ne (P S : List Nat) (x e : Nat) (he : e ≠ 0)
    (hlt : e < 2 ^ 32) :
    crc32 (P ++ (x ^^^ e) :: S) ≠ crc32 (P ++ x :: S) := by
  unfold crc32
  intro hEq
  have hxk : ∀ a b : Nat, a ^^^ 0xFFFFFFFF = b ^^^ 0xFFFFFFFF → a = b := by
    intro a b h
    have h2 := congrArg (· ^^^ 0xFFFFFFFF) h
    simpa [Nat.xor_assoc] using h2
  have hfold := hxk _ _ hEq
  rw [List.foldl_append, List.foldl_append] at hfold
  simp only [List.foldl_cons] at hfold
  set c0 := P.foldl crcByteStep 0xFFFFFFFF with hc0
  have hstep : crcByteStep c0 (x ^^^ e) = crcByteStep c0 x ^^^ crcBitSteps 8 e := by
    unfold crcByteStep
    rw [show c0 ^^^ (x ^^^ e) = (c0 ^^^ x) ^^^ e from by rw [Nat.xor_assoc]]
    exact crcBitSteps_xor 8 _ _
  rw [hstep, foldl_crcByteStep_xor] at hfold
  have hD := crcBitSteps_ne_zero (8 * S.length) _
    (crcBitSteps_ne_zero 8 e he hlt).1 (crcBitSteps_ne_zero 8 e he hlt).2
  have hD0 : crcBitSteps (8 * S.length) (crcBitSteps 8 e) = 0 := by
    calc crcBitSteps (8 * S.length) (crcBitSteps 8 e)
        = (S.foldl crcByteStep (crcByteStep c0 x)) ^^^
          ((S.foldl crcByteStep (crcByteStep c0 x)) ^^^
            crcBitSteps (8 * S.length) (crcBitSteps 8 e)) := by
          rw [← Nat.xor_assoc, Nat.xor_self, Nat.zero_xor]
      _ = 0 := by rw [hfold, Nat.xor_self]
  exact hD.1 hD0
/-- A successful decode implies the length and checksum checks passed. -/
theorem unmarshalBinary_ok_inv {b : List Nat} {p : Packet}
    (h : unmarshalBinary b = .ok p) :
    8 ≤ b.length ∧
    leUint32 (b.drop (b.length - 4)) = crc32 (b.take (b.length - 4)) := by
  rw [unmarshalBinary] at h
  by_cases h1 : b.length < 8
  · rw [if_pos h1] at h; cases h
  · rw [if_neg h1] at h
    refine ⟨by omega, ?_⟩
    by_cases h2 : leUint32 (b.drop (b.length - 4)) ≠ crc32 (b.take (b.length - 4))
    · simp only [if_pos h2] at h
      cases h
    · push_neg at h2
      exact h2
/-- C9: for every byte string that UnmarshalBinary decodes successfully,
flipping any single bit at a position outside the final 4-byte checksum
field makes UnmarshalBinary fail with the checksum-mismatch error. -/
theorem c9_checksum_sensitivity (b : List Nat) (p : Packet) (j k : Nat)
    (hok : unmarshalBinary b = .ok p) (hbytes : ∀ x ∈ b, x < 256)
    (hj : j < b.length - 4) (hk : k < 8) :
    unmarshalBinary (flipBit b j k) = .error .invalidChecksum := by
  obtain ⟨hlen, hwg⟩ := unmarshalBinary_ok_inv hok
  have hMlen : (b.take (b.length - 4)).length = b.length - 4 := by
    rw [List.length_take]
    omega
  have hjM : j < (b.take (b.length - 4)).length := by omega
  have htake : b.take j = (b.take (b.length - 4)).take j := by
    rw [List.take_take]
    congr 1
    omega
  have hgetD : b.getD j 0 = (b.take (b.length - 4)).getD j 0 := by
    simp only [List.getD_eq_getElem?_getD]
    rw [List.getElem?_take]
    simp [show j < b.length - 4 from hj]
  have hdrop : b.drop (j + 1) =
      (b.take (b.length - 4)).drop (j + 1) ++ b.drop (b.length - 4) := by
    conv_lhs => rw [← List.take_append_drop (b.length - 4 - (j + 1)) (b.drop (j + 1))]
    rw [List.drop_take, List.drop_drop]
    congr 2 <;> omega
  have hflip : flipBit b j k =
      ((b.take (b.length - 4)).take j ++
        ((b.take (b.length - 4)).getD j 0 ^^^ (1 <<< k)) ::
        (b.take (b.length - 4)).drop (j + 1)) ++ b.drop (b.length - 4) := by
    rw [flipBit, htake, hgetD, hdrop]
    simp
  have hsplit : b.take (b.length - 4) =
      (b.take (b.length - 4)).take j ++
        (b.take (b.length - 4)).getD j 0 :: (b.take (b.length - 4)).drop (j + 1) := by
    conv_lhs => rw [← List.take_append_drop j (b.take (b.length - 4))]
    congr 1
    rw [List.drop_eq_getElem_cons hjM]
    congr 1
    simp only [List.getD_eq_getElem?_getD]
    rw [List.getElem?_eq_getElem hjM]
    rfl
  have hM'len : ((b.take (b.length - 4)).take j ++
        ((b.take (b.length - 4)).getD j 0 ^^^ (1 <<< k)) ::
        (b.take (b.length - 4)).drop (j + 1)).length = b.length - 4 := by
    simp
    omega
  have he0 : (1 <<< k : Nat) ≠ 0 := by
    rw [Nat.shiftLeft_eq, Nat.one_mul]
    positivity
  have helt : (1 <<< k : Nat) < 2 ^ 32 := by
    rw [Nat.shiftLeft_eq, Nat.one_mul]
    exact Nat.pow_lt_pow_right (by norm_num) (by omega)
  have hcrcne : crc32 ((b.take (b.length - 4)).take j ++
        ((b.take (b.length - 4)).getD j 0 ^^^ (1 <<< k)) ::
        (b.take (b.length - 4)).drop (j + 1)) ≠ crc32 (b.take (b.length - 4)) := by
    conv_rhs => rw [hsplit]
    exact crc32_flip_ne _ _ _ _ he0 helt
  rw [unmarshalBinary]
  have hfliplen : (flipBit b j k).length = b.length := by
    rw [hflip, List.length_append, hM'len, List.length_drop]
    omega
  rw [hfliplen]
  rw [if_neg (by omega)]
  have hdropF : (flipBit b j k).drop (b.length - 4) = b.drop (b.length - 4) := by
    rw [hflip]
    exact List.drop_left' hM'len
  have htakeF : (flipBit b j k).take (b.length - 4) =
      (b.take (b.length - 4)).take j ++
        ((b.take (b.length - 4)).getD j 0 ^^^ (1 <<< k)) ::
        (b.take (b.length - 4)).drop (j + 1) := by
    rw [hflip]
    exact List.take_left' hM'len
  rw [hdropF, htakeF]
  rw [if_pos (by rw [hwg]; exact Ne.symm hcrcne)]
/-- Witness for C9: flipping bit 0 of byte 0 of a concrete valid packet
yields the checksum-mismatch error. -/
theorem c9_witness :
    unmarshalBinary (flipBit [0, 1, 0, 0, 43, 181, 134, 32] 0 0) =
      .error .invalidChecksum :=
  c9_checksum_sensitivity [0, 1, 0, 0, 43, 181, 134, 32] ⟨1, []⟩ 0 0
    (by decide) (by decide) (by decide) (by decide)

end Hdhr
